import Mathlib

set_option autoImplicit false

namespace CokDjango

/-!  Shallow embedding of the image-variant resolver and transform of
`blog/image_variants.py`, the featured-image helpers of `blog/models.py`,
and `Profile.save` of `resume/models.py`. -/

/-- Character for a single decimal digit, models the digits of Python str(int). -/
def digitChar (d : Nat) : Char :=
  if d = 0 then '0' else if d = 1 then '1' else if d = 2 then '2'
  else if d = 3 then '3' else if d = 4 then '4' else if d = 5 then '5'
  else if d = 6 then '6' else if d = 7 then '7' else if d = 8 then '8' else '9'

/-- Fuel-driven decimal rendering, most significant digit first. -/
def natStrGo : Nat → Nat → List Char → List Char
  | 0, _, acc => acc
  | fuel + 1, n, acc =>
    if n < 10 then digitChar n :: acc
    else natStrGo fuel (n / 10) (digitChar (n % 10) :: acc)

/-- Decimal rendering of a natural number; models Python str on a nonnegative int
(the widths and heights interpolated into the variant file name). -/
def natStr (n : Nat) : String :=
  String.mk (natStrGo (n + 1) n [])

/-- A parsed POSIX pure path: absolute flag plus the component list
(pathlib drops empty and single-dot components when parsing). -/
structure PurePath where
  absolute : Bool
  comps : List (List Char)
deriving DecidableEq, Repr

/-- Split a character list at every slash. -/
def splitSlash : List Char → List (List Char)
  | [] => [[]]
  | c :: rest =>
    match splitSlash rest with
    | [] => [[]]
    | piece :: pieces =>
      if c = '/' then [] :: piece :: pieces else (c :: piece) :: pieces

/-- Whether a character list begins with a slash. -/
def startsWithSlash (cs : List Char) : Bool :=
  match cs with
  | [] => false
  | c :: _ => c = '/'

/-- Parse a storage-relative name the way pathlib.PurePosixPath does. -/
def parsePath (s : String) : PurePath :=
  { absolute := startsWithSlash s.data
    comps := (splitSlash s.data).filter (fun c => decide (c ≠ [] ∧ c ≠ ['.'])) }

/-- Join character-list components with slashes. -/
def interSlash : List (List Char) → List Char
  | [] => []
  | [c] => c
  | c :: c' :: rest => c ++ '/' :: interSlash (c' :: rest)

/-- str() of a pure path ("." for an empty relative path). -/
def pathStr (p : PurePath) : String :=
  if p.absolute then String.mk ('/' :: interSlash p.comps)
  else if p.comps = [] then "."
  else String.mk (interSlash p.comps)

/-- path.parent: the path without its final component. -/
def pathParent (p : PurePath) : PurePath :=
  { p with comps := p.comps.dropLast }

/-- path.name: the final component (empty for "." or "/"). -/
def pathName (p : PurePath) : List Char :=
  p.comps.getLastD []

/-- Index of the last dot of a component, if any. -/
def lastDotIdx : List Char → Option Nat
  | [] => none
  | c :: rest =>
    match lastDotIdx rest with
    | some i => some (i + 1)
    | none => if c = '.' then some 0 else none

/-- Strip the suffix from a file name; pathlib strips only when the last dot is
neither the first nor the final character of the name. -/
def stemChars (nameChars : List Char) : List Char :=
  match lastDotIdx nameChars with
  | some i => if 0 < i ∧ i + 1 < nameChars.length then nameChars.take i else nameChars
  | none => nameChars

/-- path.stem of a pure path. -/
def pathStem (p : PurePath) : String :=
  String.mk (stemChars (pathName p))

/-- The path / string operator: parse the right operand; an absolute right
operand replaces the left one. -/
def pathJoin (p : PurePath) (s : String) : PurePath :=
  if (parsePath s).absolute then parsePath s
  else { absolute := p.absolute, comps := p.comps ++ (parsePath s).comps }

/-- blog/image_variants.py, _variant_file_name:
str(source.parent / "_variants" / f"{source.stem}__{variant_name}_{width}x{height}.jpg"). -/
def variant_file_name (source_name : String) (variant_name : String)
    (width height : Nat) : String :=
  pathStr
    (pathJoin (pathJoin (pathParent (parsePath source_name)) "_variants")
      (pathStem (parsePath source_name) ++ "__" ++ variant_name ++ "_"
        ++ natStr width ++ "x" ++ natStr height ++ ".jpg"))

/-- Join string components with slashes (used only to state path facts). -/
def joinComps (l : List String) : String :=
  String.mk (interSlash (l.map String.data))

/-- A path component in normal form: nonempty, not the single dot, and free
of slashes (used only to state path facts). -/
def cleanComp (c : List Char) : Prop :=
  c ≠ [] ∧ c ≠ ['.'] ∧ '/' ∉ c

/-! ### The image model (PIL images as used by _build_variant_content) -/

/-- The PIL color modes distinguished by _convert_to_rgb; L stands for any
mode that reaches the generic final convert("RGB") branch. -/
inductive PilMode
  | RGB
  | RGBA
  | LA
  | P
  | L
deriving DecidableEq, Repr

/-- A decoded PIL image.  Channel values are functions of pixel coordinates;
their meaning depends on the mode: for RGB and RGBA the three color channels,
for LA and L the gray level in chanR, for P the palette index in chanR.
chanA is the alpha channel where the mode has one.  A P image carries its
palette and the optional transparent palette index; orientation is the EXIF
orientation tag (1 means upright). -/
structure Img where
  mode : PilMode
  width : Nat
  height : Nat
  chanR : Nat → Nat → Nat
  chanG : Nat → Nat → Nat
  chanB : Nat → Nat → Nat
  chanA : Nat → Nat → Nat
  palette : Nat → Nat × Nat × Nat
  transparencyIdx : Option Nat
  orientation : Nat

/-- Remap every channel of an image through a coordinate transformation. -/
def remapImg (img : Img) (w h : Nat) (fx fy : Nat → Nat → Nat) : Img :=
  { img with
    width := w
    height := h
    chanR := fun x y => img.chanR (fx x y) (fy x y)
    chanG := fun x y => img.chanG (fx x y) (fy x y)
    chanB := fun x y => img.chanB (fx x y) (fy x y)
    chanA := fun x y => img.chanA (fx x y) (fy x y) }

/-- ImageOps.exif_transpose: undo the EXIF orientation (tags 2 to 8) and clear
the tag.  Coordinate maps give, for each output pixel, the source pixel. -/
def exif_transpose (img : Img) : Img :=
  let w := img.width
  let h := img.height
  let base :=
    match img.orientation with
    | 2 => remapImg img w h (fun x _ => w - 1 - x) (fun _ y => y)
    | 3 => remapImg img w h (fun x _ => w - 1 - x) (fun _ y => h - 1 - y)
    | 4 => remapImg img w h (fun x _ => x) (fun _ y => h - 1 - y)
    | 5 => remapImg img h w (fun _ y => y) (fun x _ => x)
    | 6 => remapImg img h w (fun _ y => y) (fun x _ => h - 1 - x)
    | 7 => remapImg img h w (fun _ y => w - 1 - y) (fun x _ => h - 1 - x)
    | 8 => remapImg img h w (fun _ y => w - 1 - y) (fun x _ => x)
    | _ => img
  { base with orientation := 1 }

/-- The crop box computed by ImageOps.fit with bleed 0: out-of-range centering
falls back to one half; the box has the target aspect ratio and covers the
largest live region it can. -/
def fitCropBox (srcW srcH outW outH : Nat) (centering : ℚ × ℚ) : ℚ × ℚ × ℚ × ℚ :=
  let cx := if 0 ≤ centering.1 ∧ centering.1 ≤ 1 then centering.1 else 1 / 2
  let cy := if 0 ≤ centering.2 ∧ centering.2 ≤ 1 then centering.2 else 1 / 2
  let liveW : ℚ := srcW
  let liveH : ℚ := srcH
  let liveRatio := liveW / liveH
  let outRatio := (outW : ℚ) / (outH : ℚ)
  let cropW := if outRatio ≤ liveRatio then liveH * outRatio else liveW
  let cropH := if outRatio ≤ liveRatio then liveH else liveW / outRatio
  let left := (liveW - cropW) * cx
  let top := (liveH - cropH) * cy
  (left, top, left + cropW, top + cropH)

/-- Nearest sample coordinate inside a box edge; models Image.resize point
lookup (the claims do not depend on the resampling filter weights). -/
def sampleCoord (lo hi : ℚ) (n : Nat) (i : Nat) : Nat :=
  (⌊lo + ((i : ℚ) + 1 / 2) * (hi - lo) / (n : ℚ)⌋).toNat

/-- Image.resize to an exact output size, reading source pixels from the crop
box.  The output dimensions are the requested size by construction, exactly as
in PIL where resize allocates the target-sized image. -/
def resizeTo (img : Img) (outW outH : Nat) (box : ℚ × ℚ × ℚ × ℚ) : Img :=
  let (l, t, r, b) := box
  remapImg img outW outH
    (fun x _ => sampleCoord l r outW x)
    (fun _ y => sampleCoord t b outH y)

/-- ImageOps.fit: crop to the target aspect ratio around the centering point,
then resize to exactly the target size. -/
def imageops_fit (img : Img) (size : Nat × Nat) (centering : ℚ × ℚ) : Img :=
  resizeTo img size.1 size.2 (fitCropBox img.width img.height size.1 size.2 centering)

/-- One channel of Image.paste with an 8-bit mask: a convex blend of the
background and source values, exact at mask values 0 and 255. -/
def blendChannel (bg src a : Nat) : Nat :=
  (bg * (255 - a) + src * a) / 255

/-- The red value an image contributes when pasted onto an RGB background
(paste converts the source to RGB: LA gray is replicated to all channels). -/
def pasteSrcR (img : Img) (x y : Nat) : Nat := img.chanR x y

/-- Green value under paste-to-RGB conversion. -/
def pasteSrcG (img : Img) (x y : Nat) : Nat :=
  if img.mode = .LA then img.chanR x y else img.chanG x y

/-- Blue value under paste-to-RGB conversion. -/
def pasteSrcB (img : Img) (x y : Nat) : Nat :=
  if img.mode = .LA then img.chanR x y else img.chanB x y

/-- Image.convert("RGBA") on a P image: look each palette index up and give
alpha 0 to the transparent index, 255 elsewhere. -/
def pToRGBA (img : Img) : Img :=
  { img with
    mode := .RGBA
    chanR := fun x y => (img.palette (img.chanR x y)).1
    chanG := fun x y => (img.palette (img.chanR x y)).2.1
    chanB := fun x y => (img.palette (img.chanR x y)).2.2
    chanA := fun x y =>
      match img.transparencyIdx with
      | some t => if img.chanR x y = t then 0 else 255
      | none => 255 }

/-- Image.convert("RGB") on an RGBA image: the alpha band is discarded, the
color bands are kept as they are (PIL does not composite here). -/
def rgbaToRGBDropAlpha (img : Img) : Img :=
  { img with mode := .RGB, chanA := fun _ _ => 255 }

/-- Image.convert("RGB") on a gray image: replicate the gray level. -/
def grayToRGB (img : Img) : Img :=
  { img with
    mode := .RGB
    chanG := fun x y => img.chanR x y
    chanB := fun x y => img.chanR x y
    chanA := fun _ _ => 255 }

/-- blog/image_variants.py, _convert_to_rgb: RGB passes through; RGBA and LA
are pasted onto a white RGB background with their alpha channel as the mask;
P goes through convert("RGBA") then convert("RGB"); anything else goes
through the generic convert("RGB"). -/
def convert_to_rgb (img : Img) : Img :=
  if img.mode = .RGB then img
  else if img.mode = .RGBA ∨ img.mode = .LA then
    { img with
      mode := .RGB
      chanR := fun x y => blendChannel 255 (pasteSrcR img x y) (img.chanA x y)
      chanG := fun x y => blendChannel 255 (pasteSrcG img x y) (img.chanA x y)
      chanB := fun x y => blendChannel 255 (pasteSrcB img x y) (img.chanA x y)
      chanA := fun _ _ => 255 }
  else if img.mode = .P then
    rgbaToRGBDropAlpha (pToRGBA img)
  else
    grayToRGB img

/-- blog/image_variants.py JPEG_QUALITY. -/
def JPEG_QUALITY : Nat := 88

/-- Encoded JPEG bytes, modelled by what they decode to: JPEG stores exactly
three channels at the encoded dimensions. -/
structure JpegBytes where
  width : Nat
  height : Nat
  px : Nat → Nat → Nat × Nat × Nat

/-- Image.save(buffer, format="JPEG", quality=q, optimize=True), modelled up
to lossy compression noise: dimensions and channel structure are exact. -/
def jpeg_encode (img : Img) (_quality : Nat) : JpegBytes :=
  { width := img.width
    height := img.height
    px := fun x y => (img.chanR x y, img.chanG x y, img.chanB x y) }

/-- The decoded pixel dimensions of encoded bytes. -/
def jpeg_decode_size (b : JpegBytes) : Nat × Nat :=
  (b.width, b.height)

/-- The image pipeline inside _build_variant_content, from decoded source
image to encoded bytes: exif_transpose, ImageOps.fit with LANCZOS and
centering (0.5, 0.5), _convert_to_rgb, JPEG encode at quality 88. -/
def build_variant_image (img : Img) (size : Nat × Nat) : JpegBytes :=
  jpeg_encode (convert_to_rgb (imageops_fit (exif_transpose img) size (1 / 2, 1 / 2)))
    JPEG_QUALITY

/-! ### The storage and resolver model (get_cropped_image_variant) -/

/-- The storage operations the spec's claims talk about. -/
inductive StorageOp
  | existsCheck (name : String)
  | openRead (name : String)
  | delete (name : String)
  | save (name : String)
deriving DecidableEq, Repr

/-- A Django storage backend as get_cropped_image_variant uses one.
Fallible Python calls are modelled by Option results and Bool success flags:
none or false means the call raises.  hasPathAttr models
callable(getattr(storage, "path", None)); pathOf gives the real filesystem
path or none when storage.path raises NotImplementedError, OSError or
ValueError; mtimeOf models os.path.getmtime on a real path, none when it
raises OSError; decodeOf models storage.open followed by Image.open, none
when either raises. -/
structure Storage where
  fileExists : String → Bool
  hasPathAttr : Bool
  pathOf : String → Option String
  mtimeOf : String → Option ℚ
  decodeOf : String → Option Img
  deleteOk : String → Bool
  saveOk : String → Bool
  url : String → String

/-- blog/image_variants.py, _storage_supports_paths. -/
def storage_supports_paths (st : Storage) : Bool :=
  st.hasPathAttr

/-- blog/image_variants.py, _is_older_than_source: false when storage.path
raises on either name; true when getmtime raises on either real path;
otherwise compare the two modification times. -/
def is_older_than_source (st : Storage) (source_name variant_name : String) : Bool :=
  match st.pathOf source_name, st.pathOf variant_name with
  | some source_path, some variant_path =>
    match st.mtimeOf variant_path, st.mtimeOf source_path with
    | some mv, some ms => decide (mv < ms)
    | _, _ => true
  | _, _ => false

/-- blog/image_variants.py, _build_variant_content: open and decode the
source, then run the image pipeline; none models any exception on the way. -/
def build_variant_content (st : Storage) (source_name : String)
    (size : Nat × Nat) : Option JpegBytes :=
  match st.decodeOf source_name with
  | some img => some (build_variant_image img size)
  | none => none

/-- The regeneration test of get_cropped_image_variant lines 32 to 34:
needed when the variant is missing; when it exists and the backend exposes
paths, needed when the variant is older than the source. -/
def needs_regeneration (st : Storage) (source_name variant_name : String) : Bool :=
  let missing := ! st.fileExists variant_name
  if !missing && storage_supports_paths st then
    is_older_than_source st source_name variant_name
  else
    missing

/-- A Django ImageFieldFile: present models Python truthiness of the field
file (false when no file is associated), name its stored name, url the
source URL property, storage its storage backend. -/
structure ImageFieldFile where
  present : Bool
  name : String
  url : String
  storage : Storage

/-- blog/image_variants.py, get_cropped_image_variant.  Returns the URL the
Python function returns together with the trace of storage operations it
performed.  The try block around regeneration is modelled by the fallible
steps: any failing step yields the source URL, as the except branch does. -/
def get_cropped_image_variant (f : ImageFieldFile) (variant_name : String)
    (size : Nat × Nat) : String × List StorageOp :=
  if !f.present then ("", [])
  else if f.name = "" then ("", [])
  else
    let st := f.storage
    let vfn := variant_file_name f.name variant_name size.1 size.2
    let ops0 := [StorageOp.existsCheck vfn]
    if needs_regeneration st f.name vfn then
      match build_variant_content st f.name size with
      | none => (f.url, ops0 ++ [StorageOp.openRead f.name])
      | some _ =>
        let ops1 := ops0 ++ [StorageOp.openRead f.name, StorageOp.existsCheck vfn]
        if st.fileExists vfn then
          if st.deleteOk vfn then
            if st.saveOk vfn then
              (st.url vfn, ops1 ++ [StorageOp.delete vfn, StorageOp.save vfn])
            else
              (f.url, ops1 ++ [StorageOp.delete vfn, StorageOp.save vfn])
          else
            (f.url, ops1 ++ [StorageOp.delete vfn])
        else
          if st.saveOk vfn then
            (st.url vfn, ops1 ++ [StorageOp.save vfn])
          else
            (f.url, ops1 ++ [StorageOp.save vfn])
    else
      (st.url vfn, ops0)

/-! ### The Post featured-image helpers (blog/models.py) -/

/-- Python call outcomes for a modelled call. -/
inductive PyError
  | typeError
deriving DecidableEq, Repr

/-- The parameter names of get_cropped_image_variant's signature:
(image_field_file, variant_name, size). -/
def gcivParamNames : List String :=
  ["image_field_file", "variant_name", "size"]

/-- Python call semantics for get_cropped_image_variant: a keyword argument
whose name is not a parameter of the signature raises TypeError before the
body runs; otherwise the function runs. -/
def call_get_cropped_image_variant (f : ImageFieldFile) (variant_name : String)
    (size : Nat × Nat) (keywordNames : List String) :
    Except PyError (String × List StorageOp) :=
  if keywordNames.all (fun k => gcivParamNames.contains k) then
    Except.ok (get_cropped_image_variant f variant_name size)
  else
    Except.error PyError.typeError

/-- blog/models.py FEATURED_IMAGE_CARD_SIZE. -/
def FEATURED_IMAGE_CARD_SIZE : Nat × Nat := (800, 450)

/-- blog/models.py FEATURED_IMAGE_HERO_SIZE. -/
def FEATURED_IMAGE_HERO_SIZE : Nat × Nat := (1600, 900)

/-- A Post as far as the featured-image helpers read it: the image field
file and the two focus percentages (PositiveSmallIntegerField values). -/
structure Post where
  featured_image : ImageFieldFile
  featured_image_focus_x : Nat
  featured_image_focus_y : Nat

/-- Python `v or d` on an int: 0 is falsy and is replaced by the default. -/
def pyIntOr (v d : Nat) : Nat :=
  if v = 0 then d else v

/-- One coordinate of Post._featured_image_crop_centering:
max(0, min(100, focus or 50)) / 100 computed with true division. -/
def crop_centering_coord (v : Nat) : ℚ :=
  ((max 0 (min 100 (pyIntOr v 50)) : Nat) : ℚ) / 100

/-- blog/models.py, Post._featured_image_crop_centering. -/
def featured_image_crop_centering (p : Post) : ℚ × ℚ :=
  (crop_centering_coord p.featured_image_focus_x,
    crop_centering_coord p.featured_image_focus_y)

/-- blog/models.py, Post._featured_image_focus_token:
f"fx{x}_fy{y}" of the clamped int coordinates. -/
def featured_image_focus_token (x y : Nat) : String :=
  "fx" ++ natStr (max 0 (min 100 (pyIntOr x 50))) ++ "_fy"
    ++ natStr (max 0 (min 100 (pyIntOr y 50)))

/-- blog/models.py, Post.featured_image_card_url: empty for a missing image,
otherwise a call of get_cropped_image_variant that also passes the keyword
arguments centering and version_token. -/
def featured_image_card_url (p : Post) : Except PyError String :=
  if !p.featured_image.present then Except.ok ""
  else
    match call_get_cropped_image_variant p.featured_image "card"
        FEATURED_IMAGE_CARD_SIZE
        ["variant_name", "size", "centering", "version_token"] with
    | Except.ok r => Except.ok r.1
    | Except.error e => Except.error e

/-- blog/models.py, Post.featured_image_hero_url: the hero variant of the
same call shape. -/
def featured_image_hero_url (p : Post) : Except PyError String :=
  if !p.featured_image.present then Except.ok ""
  else
    match call_get_cropped_image_variant p.featured_image "hero"
        FEATURED_IMAGE_HERO_SIZE
        ["variant_name", "size", "centering", "version_token"] with
    | Except.ok r => Except.ok r.1
    | Except.error e => Except.error e

/-! ### The Profile active-flag side effect (resume/models.py) -/

/-- A Profile row as far as Profile.save touches it: primary key and the
is_active flag. -/
structure ProfileRec where
  pk : Nat
  is_active : Bool
deriving DecidableEq, Repr

/-- Profile.objects.filter(is_active=True).exclude(pk=self.pk).update(is_active=False):
deactivate every active row other than the saved one.  A none primary key
(unsaved instance) excludes no row, since pk IS NULL matches nothing. -/
def deactivate_others (db : List ProfileRec) (savedPk : Option Nat) : List ProfileRec :=
  db.map fun q =>
    if q.is_active && (match savedPk with
        | some k => decide (q.pk ≠ k)
        | none => true) then
      { q with is_active := false }
    else q

/-- Model of super().save() for an instance with a primary key: update the
row in place when it exists, insert it otherwise. -/
def db_upsert (db : List ProfileRec) (k : Nat) (active : Bool) : List ProfileRec :=
  if db.any (fun q => q.pk = k) then
    db.map fun q => if q.pk = k then { pk := k, is_active := active } else q
  else
    db ++ [{ pk := k, is_active := active }]

/-- A fresh primary key for an insert of an unsaved instance. -/
def next_pk (db : List ProfileRec) : Nat :=
  (db.map (fun q => q.pk)).foldr max 0 + 1

/-- The primary key the saved row ends up with. -/
def saved_pk (db : List ProfileRec) (savedPk : Option Nat) : Nat :=
  match savedPk with
  | some k => k
  | none => next_pk db

/-- resume/models.py, Profile.save: when the instance is active, first
deactivate all other active rows, then write the instance itself. -/
def profile_save (db : List ProfileRec) (savedPk : Option Nat) (active : Bool) :
    List ProfileRec :=
  let db1 := if active then deactivate_others db savedPk else db
  match savedPk with
  | some k => db_upsert db1 k active
  | none => db1 ++ [{ pk := next_pk db1, is_active := active }]

/-- The number of active rows. -/
def activeCount (db : List ProfileRec) : Nat :=
  db.countP (fun q => q.is_active)

/-! ### Failure predicate and concrete sample objects -/

/-- The ways the try block of get_cropped_image_variant can raise once
regeneration has started: building the bytes fails, deleting an existing
stale variant fails, or saving the fresh file fails. -/
def regen_attempt_fails (st : Storage) (source_name vfn : String)
    (size : Nat × Nat) : Prop :=
  build_variant_content st source_name size = none
  ∨ (build_variant_content st source_name size ≠ none
      ∧ st.fileExists vfn = true ∧ st.deleteOk vfn = false)
  ∨ (build_variant_content st source_name size ≠ none
      ∧ (st.fileExists vfn = true → st.deleteOk vfn = true)
      ∧ st.saveOk vfn = false)

/-- A backend with no path capability, an empty store and a failing decoder. -/
def sampleStorage : Storage :=
  { fileExists := fun _ => false
    hasPathAttr := false
    pathOf := fun _ => none
    mtimeOf := fun _ => none
    decodeOf := fun _ => none
    deleteOk := fun _ => false
    saveOk := fun _ => false
    url := fun n => "/media/" ++ n }

/-- A filesystem backend: the variant exists but is older than the source. -/
def fsStorage : Storage :=
  { fileExists := fun _ => true
    hasPathAttr := true
    pathOf := fun n => some ("/srv/" ++ n)
    mtimeOf := fun p => if p = "/srv/img/photo.png" then some 10 else some 3
    decodeOf := fun _ => none
    deleteOk := fun _ => true
    saveOk := fun _ => true
    url := fun n => "/media/" ++ n }

/-- A present field file over the sample storage. -/
def sampleFieldFile : ImageFieldFile :=
  { present := true
    name := "img/photo.png"
    url := "/media/src.png"
    storage := sampleStorage }

/-- A present field file over the filesystem storage. -/
def fsFieldFile : ImageFieldFile :=
  { present := true
    name := "img/photo.png"
    url := "/media/src.png"
    storage := fsStorage }

/-- A post with a featured image and centered focus. -/
def samplePost : Post :=
  { featured_image := sampleFieldFile
    featured_image_focus_x := 50
    featured_image_focus_y := 50 }

/-- A 1200 by 800 upright RGB source image. -/
def sampleSourceImg : Img :=
  { mode := .RGB
    width := 1200
    height := 800
    chanR := fun _ _ => 10
    chanG := fun _ _ => 20
    chanB := fun _ _ => 30
    chanA := fun _ _ => 255
    palette := fun _ => (0, 0, 0)
    transparencyIdx := none
    orientation := 1 }

/-- A 1 by 1 palette image whose only pixel uses the transparent palette
index, and whose palette color for that index is black. -/
def transparentBlackPaletteImg : Img :=
  { mode := .P
    width := 1
    height := 1
    chanR := fun _ _ => 0
    chanG := fun _ _ => 0
    chanB := fun _ _ => 0
    chanA := fun _ _ => 255
    palette := fun _ => (0, 0, 0)
    transparencyIdx := some 0
    orientation := 1 }

/-- A 1 by 1 RGBA image whose only pixel is fully transparent black. -/
def transparentRGBAImg : Img :=
  { mode := .RGBA
    width := 1
    height := 1
    chanR := fun _ _ => 0
    chanG := fun _ _ => 0
    chanB := fun _ _ => 0
    chanA := fun _ _ => 0
    palette := fun _ => (0, 0, 0)
    transparencyIdx := none
    orientation := 1 }

/-! ### Theorems -/

example : variant_file_name "img/photo.png" "card" 800 450
    = "img/_variants/photo__card_800x450.jpg" := by decide

example : variant_file_name "photo.png" "card" 800 450
    = "_variants/photo__card_800x450.jpg" := by decide

/-- C5: if the source asset is absent or its stored name is empty, resolve
returns an empty string and performs no storage operations at all. -/
theorem resolve_empty_source_no_ops (f : ImageFieldFile) (v : String)
    (size : Nat × Nat) (h : f.present = false ∨ f.name = "") :
    get_cropped_image_variant f v size = ("", []) := by
  rcases h with h | h <;> simp [get_cropped_image_variant, h]

/-- C5 witness: an absent field file resolves to the empty URL without ops. -/
theorem resolve_empty_source_no_ops_witness :
    get_cropped_image_variant ⟨false, "", "", sampleStorage⟩ "card" (800, 450)
      = ("", []) :=
  resolve_empty_source_no_ops ⟨false, "", "", sampleStorage⟩ "card" (800, 450)
    (Or.inl rfl)

/-- C9: for every post whose featured image is set, both URL properties raise
TypeError, because they pass the keyword arguments centering and
version_token which get_cropped_image_variant's signature does not accept. -/
theorem featured_image_urls_raise_type_error (p : Post)
    (h : p.featured_image.present = true) :
    featured_image_card_url p = Except.error PyError.typeError
    ∧ featured_image_hero_url p = Except.error PyError.typeError := by
  constructor <;>
    simp [featured_image_card_url, featured_image_hero_url,
      call_get_cropped_image_variant, h, gcivParamNames]

/-- C9 witness: the sample post with an image yields TypeError on both. -/
theorem featured_image_urls_raise_type_error_witness :
    featured_image_card_url samplePost = Except.error PyError.typeError
    ∧ featured_image_hero_url samplePost = Except.error PyError.typeError :=
  featured_image_urls_raise_type_error samplePost rfl

/-- C10: a stored focus coordinate of 0 is replaced by the default 50 before
clamping, so focus 0 gives centering one half and the same centering and
focus token as focus 50; any other stored value v of the validator range
gives centering v / 100. -/
theorem focus_zero_treated_as_center :
    (crop_centering_coord 0 = 1 / 2
      ∧ crop_centering_coord 0 = crop_centering_coord 50)
    ∧ (∀ x y : Nat,
        featured_image_focus_token 0 y = featured_image_focus_token 50 y
        ∧ featured_image_focus_token x 0 = featured_image_focus_token x 50)
    ∧ ∀ v : Nat, 1 ≤ v → v ≤ 100 → crop_centering_coord v = (v : ℚ) / 100 := by
  refine ⟨⟨by norm_num [crop_centering_coord, pyIntOr],
      by norm_num [crop_centering_coord, pyIntOr]⟩,
    fun x y => ⟨rfl, rfl⟩, fun v h1 h2 => ?_⟩
  have hv : pyIntOr v 50 = v := by
    unfold pyIntOr
    rw [if_neg (by omega : ¬ v = 0)]
  have hc : (max 0 (min 100 (pyIntOr v 50)) : Nat) = v := by
    rw [hv]
    omega
  rw [crop_centering_coord, hc]

/-- C10 witness: focus 37 yields centering 37 / 100. -/
theorem focus_zero_treated_as_center_witness :
    (1 ≤ 37 ∧ 37 ≤ 100) ∧ crop_centering_coord 37 = (37 : ℚ) / 100 :=
  ⟨⟨by norm_num, by norm_num⟩,
    focus_zero_treated_as_center.2.2 37 (by norm_num) (by norm_num)⟩

/-- C3: when regeneration is attempted and any of its steps raises, building
the bytes, deleting a stale existing variant, or saving the new file, the
resolver returns the source asset's URL instead of propagating; the modelled
resolver is a total function, so no exception escapes it. -/
theorem regeneration_failure_returns_source_url (f : ImageFieldFile)
    (v : String) (size : Nat × Nat)
    (hp : f.present = true) (hn : f.name ≠ "")
    (hneeds : needs_regeneration f.storage f.name
      (variant_file_name f.name v size.1 size.2) = true)
    (hfail : regen_attempt_fails f.storage f.name
      (variant_file_name f.name v size.1 size.2) size) :
    (get_cropped_image_variant f v size).1 = f.url := by
  unfold get_cropped_image_variant
  rw [hp]
  simp only [Bool.not_true, Bool.false_eq_true, if_false, if_neg hn, hneeds,
    if_true]
  rcases hfail with hb | ⟨hb, hex, hdel⟩ | ⟨hb, hdel, hsave⟩
  · rw [hb]
  · rcases hc : build_variant_content f.storage f.name size with _ | c
    · rfl
    · rw [hex, hdel]
      rfl
  · rcases hc : build_variant_content f.storage f.name size with _ | c
    · rfl
    · rcases hex : f.storage.fileExists
        (variant_file_name f.name v size.1 size.2) with _ | _
      · rw [hsave]
        rfl
      · rw [hdel hex, hsave]
        rfl

/-- C3 witness: a failing decoder makes the resolver fall back to the
source URL. -/
theorem regeneration_failure_returns_source_url_witness :
    needs_regeneration sampleStorage "img/photo.png"
      (variant_file_name "img/photo.png" "card" 800 450) = true
    ∧ (get_cropped_image_variant sampleFieldFile "card" (800, 450)).1
        = "/media/src.png" :=
  ⟨by decide,
    regeneration_failure_returns_source_url sampleFieldFile "card" (800, 450)
      rfl (by decide) (by decide) (Or.inl rfl)⟩

/-- C4: when the two storage.path calls and the two getmtime calls succeed,
the resolver regenerates exactly when the variant is missing or the backend
exposes paths and the variant's mtime is earlier than the source's; and when
the variant exists on a backend without the path capability, a resolve call
performs no save at all. -/
theorem regeneration_iff_missing_or_stale (f : ImageFieldFile) (v : String)
    (size : Nat × Nat) (sp vp : String) (ms mv : ℚ)
    (hsp : f.storage.pathOf f.name = some sp)
    (hvp : f.storage.pathOf (variant_file_name f.name v size.1 size.2) = some vp)
    (hms : f.storage.mtimeOf sp = some ms)
    (hmv : f.storage.mtimeOf vp = some mv) :
    (needs_regeneration f.storage f.name
        (variant_file_name f.name v size.1 size.2) = true
      ↔ (f.storage.fileExists (variant_file_name f.name v size.1 size.2) = false
          ∨ (storage_supports_paths f.storage = true ∧ mv < ms)))
    ∧ (f.storage.fileExists (variant_file_name f.name v size.1 size.2) = true →
        storage_supports_paths f.storage = false →
        ∀ n, StorageOp.save n ∉ (get_cropped_image_variant f v size).2) := by
  constructor
  · unfold needs_regeneration is_older_than_source
    simp only [hsp, hvp]
    simp only [hms, hmv]
    rcases hex : f.storage.fileExists
        (variant_file_name f.name v size.1 size.2) with _ | _ <;>
      rcases hpa : storage_supports_paths f.storage with _ | _ <;>
      simp [hex, hpa]
  · intro hex hpa n
    unfold get_cropped_image_variant
    rcases f.present with _ | _
    · simp
    · rcases hname : decide (f.name = "") with _ | _
      · have hneeds : needs_regeneration f.storage f.name
            (variant_file_name f.name v size.1 size.2) = false := by
          unfold needs_regeneration
          rw [hex, hpa]
          rfl
        simp [of_decide_eq_false hname, hneeds]
      · simp [of_decide_eq_true hname]

/-- C4 witness: on the filesystem sample the source is newer, so the variant
is regenerated even though it exists. -/
theorem regeneration_iff_missing_or_stale_witness :
    fsStorage.pathOf "img/photo.png" = some "/srv/img/photo.png"
    ∧ fsStorage.mtimeOf "/srv/img/photo.png" = some 10
    ∧ (needs_regeneration fsStorage "img/photo.png"
        (variant_file_name "img/photo.png" "card" 800 450) = true
      ↔ (fsStorage.fileExists (variant_file_name "img/photo.png" "card" 800 450)
            = false
          ∨ (storage_supports_paths fsStorage = true ∧ (3 : ℚ) < 10))) :=
  ⟨rfl, rfl,
    (regeneration_iff_missing_or_stale fsFieldFile "card" (800, 450)
      "/srv/img/photo.png"
      "/srv/img/_variants/photo__card_800x450.jpg" 10 3
      rfl (by decide) rfl
      (by have h : fsFieldFile.storage.mtimeOf
              "/srv/img/_variants/photo__card_800x450.jpg"
            = (if ("/srv/img/_variants/photo__card_800x450.jpg" : String)
                  = "/srv/img/photo.png" then some (10 : ℚ) else some 3) := rfl
          rw [h, if_neg (by decide)])).1⟩

/-- _convert_to_rgb never changes the pixel dimensions. -/
theorem convert_to_rgb_width (img : Img) :
    (convert_to_rgb img).width = img.width := by
  unfold convert_to_rgb rgbaToRGBDropAlpha pToRGBA grayToRGB
  split <;> [rfl; split <;> [rfl; split <;> rfl]]

/-- _convert_to_rgb never changes the pixel dimensions. -/
theorem convert_to_rgb_height (img : Img) :
    (convert_to_rgb img).height = img.height := by
  unfold convert_to_rgb rgbaToRGBDropAlpha pToRGBA grayToRGB
  split <;> [rfl; split <;> [rfl; split <;> rfl]]

/-- C6: for every decodable source image and positive target size, the
transform's output decodes to exactly the target dimensions, downscaling or
upscaling alike. -/
theorem variant_dimensions_exact (img : Img) (w h : Nat)
    (hw : 0 < w) (hh : 0 < h) :
    jpeg_decode_size (build_variant_image img (w, h)) = (w, h) := by
  unfold build_variant_image jpeg_decode_size jpeg_encode
  rw [convert_to_rgb_width, convert_to_rgb_height]
  rfl

/-- C6 witness: a 1200 by 800 source at target (800, 450) decodes to exactly
800 by 450. -/
theorem variant_dimensions_exact_witness :
    (0 < 800 ∧ 0 < 450)
    ∧ jpeg_decode_size (build_variant_image sampleSourceImg (800, 450))
        = (800, 450) :=
  ⟨⟨by norm_num, by norm_num⟩,
    variant_dimensions_exact sampleSourceImg 800 450 (by norm_num) (by norm_num)⟩

/-- C1: the resolver has no crop-focus parameter: a call that passes the
centering keyword raises TypeError, and the crop the transform computes is
always dead centered, here on a 1200 by 800 source cropped for an 800 by 450
target, where the top and bottom margins are equal. -/
theorem resolver_lacks_crop_focus :
    call_get_cropped_image_variant sampleFieldFile "card" (800, 450)
        ["variant_name", "size", "centering", "version_token"]
      = Except.error PyError.typeError
    ∧ fitCropBox 1200 800 800 450 (1 / 2, 1 / 2)
        = (0, 125 / 2, 1200, 1475 / 2) := by
  constructor
  · simp [call_get_cropped_image_variant, gcivParamNames]
  · norm_num [fitCropBox]

/-- One blend channel against a fully transparent mask keeps the background. -/
theorem blendChannel_zero (src : Nat) : blendChannel 255 src 0 = 255 := by
  simp [blendChannel]

/-- One blend channel against a fully opaque mask keeps the source. -/
theorem blendChannel_full (src : Nat) : blendChannel 255 src 255 = src := by
  unfold blendChannel
  simp

/-- C7 counterexample: a palette image whose only pixel is the transparent
palette index with black palette color converts to black, not white: the P
branch drops alpha instead of compositing. -/
theorem palette_transparency_not_whitened :
    transparentBlackPaletteImg.transparencyIdx
        = some (transparentBlackPaletteImg.chanR 0 0)
    ∧ ((convert_to_rgb transparentBlackPaletteImg).chanR 0 0,
        (convert_to_rgb transparentBlackPaletteImg).chanG 0 0,
        (convert_to_rgb transparentBlackPaletteImg).chanB 0 0) = (0, 0, 0)
    ∧ ((0 : Nat), (0 : Nat), (0 : Nat)) ≠ ((255 : Nat), (255 : Nat), (255 : Nat)) := by
  refine ⟨rfl, ?_, by decide⟩
  rfl

/-- C7 amended: RGB passes through unchanged; RGBA and LA are composited
onto white through their alpha mask, so fully transparent pixels become
white and fully opaque pixels keep their color; P is expanded to RGBA and
then converted to RGB with the alpha band discarded, so every palette pixel
keeps its palette color whether transparent or not; any other mode is
generically converted to a gray triple. -/
theorem convert_to_rgb_modes :
    (∀ img : Img, img.mode = .RGB → convert_to_rgb img = img)
    ∧ (∀ (img : Img) (x y : Nat), img.mode = .RGBA ∨ img.mode = .LA →
        (convert_to_rgb img).mode = .RGB
        ∧ (img.chanA x y = 0 →
            ((convert_to_rgb img).chanR x y, (convert_to_rgb img).chanG x y,
              (convert_to_rgb img).chanB x y) = (255, 255, 255))
        ∧ (img.chanA x y = 255 →
            ((convert_to_rgb img).chanR x y, (convert_to_rgb img).chanG x y,
              (convert_to_rgb img).chanB x y)
              = (pasteSrcR img x y, pasteSrcG img x y, pasteSrcB img x y)))
    ∧ (∀ (img : Img) (x y : Nat), img.mode = .P →
        (convert_to_rgb img).mode = .RGB
        ∧ ((convert_to_rgb img).chanR x y, (convert_to_rgb img).chanG x y,
            (convert_to_rgb img).chanB x y) = img.palette (img.chanR x y))
    ∧ (∀ (img : Img) (x y : Nat), img.mode = .L →
        (convert_to_rgb img).mode = .RGB
        ∧ ((convert_to_rgb img).chanR x y, (convert_to_rgb img).chanG x y,
            (convert_to_rgb img).chanB x y)
            = (img.chanR x y, img.chanR x y, img.chanR x y)) := by
  refine ⟨fun img h => ?_, fun img x y h => ?_, fun img x y h => ?_,
    fun img x y h => ?_⟩
  · simp [convert_to_rgb, h]
  · have hne : ¬ img.mode = .RGB := by
      rcases h with h | h <;> simp [h]
    refine ⟨by simp [convert_to_rgb, hne, h], fun ha => ?_, fun ha => ?_⟩
    · simp [convert_to_rgb, hne, h, ha, blendChannel_zero]
    · simp [convert_to_rgb, hne, h, ha, blendChannel_full]
  · have hne : ¬ img.mode = .RGB := by simp [h]
    have hne2 : ¬ (img.mode = .RGBA ∨ img.mode = .LA) := by simp [h]
    constructor <;>
      simp [convert_to_rgb, hne, hne2, h, rgbaToRGBDropAlpha, pToRGBA]
  · have hne : ¬ img.mode = .RGB := by simp [h]
    have hne2 : ¬ (img.mode = .RGBA ∨ img.mode = .LA) := by simp [h]
    have hne3 : ¬ img.mode = .P := by simp [h]
    constructor <;> simp [convert_to_rgb, hne, hne2, hne3, grayToRGB]

/-- C7 witness: the fully transparent RGBA sample pixel converts to white. -/
theorem convert_to_rgb_modes_witness :
    transparentRGBAImg.chanA 0 0 = 0
    ∧ ((convert_to_rgb transparentRGBAImg).chanR 0 0,
        (convert_to_rgb transparentRGBAImg).chanG 0 0,
        (convert_to_rgb transparentRGBAImg).chanB 0 0) = (255, 255, 255) :=
  ⟨rfl, (convert_to_rgb_modes.2.1 transparentRGBAImg 0 0 (Or.inl rfl)).2.1 rfl⟩

/-- Deactivating rows never changes the primary keys. -/
theorem deactivate_map_pk (db : List ProfileRec) (s : Option Nat) :
    (deactivate_others db s).map (fun q => q.pk) = db.map (fun q => q.pk) := by
  unfold deactivate_others
  rw [List.map_map]
  apply List.map_congr_left
  intro q _
  dsimp only [Function.comp]
  split <;> rfl

/-- After deactivation for a keyed save, only the saved key can be active. -/
theorem deactivate_active_pk (db : List ProfileRec) (k : Nat) :
    ∀ q ∈ deactivate_others db (some k), q.is_active = true → q.pk = k := by
  intro q hq ha
  unfold deactivate_others at hq
  rcases List.mem_map.mp hq with ⟨q₀, hq₀, hfq⟩
  by_cases h : (q₀.is_active && decide (q₀.pk ≠ k)) = true
  · rw [if_pos h] at hfq
    rw [← hfq] at ha
    simp at ha
  · rw [if_neg h] at hfq
    simp only [Bool.and_eq_true, decide_eq_true_eq, not_and, not_not] at h
    rw [← hfq] at ha
    rw [← hfq]
    exact h ha

/-- After deactivation for an unkeyed save, no row is active. -/
theorem deactivate_none_inactive (db : List ProfileRec) :
    ∀ q ∈ deactivate_others db none, q.is_active = false := by
  intro q hq
  unfold deactivate_others at hq
  rcases List.mem_map.mp hq with ⟨q₀, hq₀, hfq⟩
  by_cases h : (q₀.is_active && true) = true
  · rw [if_pos h] at hfq
    rw [← hfq]
  · rw [if_neg h] at hfq
    simp only [Bool.and_true] at h
    rw [← hfq]
    exact Bool.not_eq_true _ ▸ Bool.of_not_eq_true h

/-- Counting a key over the rows equals counting it over the key list. -/
theorem countP_pk_eq_count (l : List ProfileRec) (k : Nat) :
    l.countP (fun q => q.pk == k) = (l.map (fun q => q.pk)).count k := by
  rw [List.count, List.countP_map]
  rfl

/-- The row a keyed active save writes. -/
theorem upsert_g_pk (k : Nat) (active : Bool) (q : ProfileRec) :
    (if q.pk = k then ({ pk := k, is_active := active } : ProfileRec) else q).pk
      = q.pk := by
  split <;> simp_all

/-- C8: saving an active profile leaves exactly one active row, the saved
one, and every Profile.save preserves the at-most-one-active invariant. -/
theorem profile_save_single_active (db : List ProfileRec) (s : Option Nat)
    (a : Bool) (hnodup : (db.map (fun q => q.pk)).Nodup) :
    ((∀ q ∈ profile_save db s true, q.is_active = true → q.pk = saved_pk db s)
      ∧ activeCount (profile_save db s true) = 1)
    ∧ (activeCount db ≤ 1 → activeCount (profile_save db s a) ≤ 1) := by
  have hmain :
      (∀ q ∈ profile_save db s true, q.is_active = true → q.pk = saved_pk db s)
      ∧ activeCount (profile_save db s true) = 1 := by
    rcases s with _ | k
    · -- unkeyed save: every row is deactivated, then a fresh active row added
      unfold profile_save saved_pk
      simp only [if_true]
      constructor
      · intro q hq ha
        rcases List.mem_append.mp hq with hq | hq
        · exact absurd ha (by rw [deactivate_none_inactive db q hq]; decide)
        · rcases List.mem_singleton.mp hq with rfl
          show next_pk (deactivate_others db none) = next_pk db
          unfold next_pk
          rw [deactivate_map_pk]
      · rw [activeCount, List.countP_append]
        have h0 : (deactivate_others db none).countP (fun q => q.is_active) = 0 :=
          List.countP_eq_zero.mpr fun q hq => by
            rw [deactivate_none_inactive db q hq]; decide
        rw [h0]
        rfl
    · -- keyed save
      unfold profile_save saved_pk db_upsert
      simp only [if_true]
      by_cases hany : ((deactivate_others db (some k)).any
          fun q => decide (q.pk = k)) = true
      · rw [if_pos hany]
        constructor
        · intro q hq ha
          rcases List.mem_map.mp hq with ⟨q₀, hq₀, hfq⟩
          by_cases h : q₀.pk = k
          · rw [if_pos h] at hfq
            rw [← hfq]
          · rw [if_neg h] at hfq
            rw [← hfq]
            exact deactivate_active_pk db k q₀ hq₀ (hfq ▸ ha)
        · apply Nat.le_antisymm
          · calc ((deactivate_others db (some k)).map fun q =>
                    if q.pk = k then { pk := k, is_active := true } else q).countP
                  (fun q => q.is_active)
                ≤ ((deactivate_others db (some k)).map fun q =>
                    if q.pk = k then { pk := k, is_active := true } else q).countP
                  (fun q => q.pk == k) := by
                  apply List.countP_mono_left
                  intro q hq ha
                  rcases List.mem_map.mp hq with ⟨q₀, hq₀, hfq⟩
                  by_cases h : q₀.pk = k
                  · rw [if_pos h] at hfq
                    rw [← hfq]
                    simp
                  · rw [if_neg h] at hfq
                    rw [← hfq]
                    simp [deactivate_active_pk db k q₀ hq₀ (hfq ▸ ha)]
              _ = (((deactivate_others db (some k)).map fun q =>
                      if q.pk = k then { pk := k, is_active := true } else q).map
                    (fun q => q.pk)).count k := countP_pk_eq_count _ k
              _ = (db.map (fun q => q.pk)).count k := by
                  rw [List.map_map]
                  rw [show ((fun q : ProfileRec => q.pk) ∘ fun q =>
                      if q.pk = k then
                        ({ pk := k, is_active := true } : ProfileRec)
                      else q) = fun q : ProfileRec => q.pk from
                    funext fun q => upsert_g_pk k true q]
                  exact congrArg (List.count k) (deactivate_map_pk db (some k))
              _ ≤ 1 := List.nodup_iff_count_le_one.mp hnodup k
          · rcases List.any_eq_true.mp hany with ⟨q₀, hq₀, hpk⟩
            have hmem : ({ pk := k, is_active := true } : ProfileRec)
                ∈ (deactivate_others db (some k)).map fun q =>
                    if q.pk = k then { pk := k, is_active := true } else q :=
              List.mem_map.mpr ⟨q₀, hq₀, by rw [if_pos (of_decide_eq_true hpk)]⟩
            exact List.countP_pos.mpr ⟨_, hmem, rfl⟩
      · rw [if_neg hany]
        constructor
        · intro q hq ha
          rcases List.mem_append.mp hq with hq | hq
          · exact deactivate_active_pk db k q hq ha
          · rcases List.mem_singleton.mp hq with rfl
            rfl
        · rw [activeCount, List.countP_append]
          have h0 : (deactivate_others db (some k)).countP
              (fun q => q.is_active) = 0 :=
            List.countP_eq_zero.mpr fun q hq hactive =>
              hany (List.any_eq_true.mpr
                ⟨q, hq, decide_eq_true (deactivate_active_pk db k q hq hactive)⟩)
          rw [h0]
          rfl
  refine ⟨hmain, fun hle => ?_⟩
  cases a
  · -- inactive save: rows other than the saved one are untouched
    rcases s with _ | k
    · unfold profile_save
      simp only [if_neg (by decide : ¬ false = true)]
      rw [activeCount, List.countP_append]
      have h1 : ([{ pk := next_pk db, is_active := false }] :
          List ProfileRec).countP (fun q => q.is_active) = 0 := rfl
      rw [h1]
      rw [activeCount] at hle
      omega
    · unfold profile_save db_upsert
      simp only [if_neg (by decide : ¬ false = true)]
      by_cases hany : (db.any fun q => decide (q.pk = k)) = true
      · rw [if_pos hany]
        calc (db.map fun q =>
                if q.pk = k then { pk := k, is_active := false } else q).countP
              (fun q => q.is_active)
            ≤ db.countP (fun q => q.is_active) := by
              rw [List.countP_map]
              apply List.countP_mono_left
              intro q _ hq
              dsimp only [Function.comp] at hq
              by_cases h : q.pk = k
              · rw [if_pos h] at hq
                simp at hq
              · rw [if_neg h] at hq
                exact hq
          _ ≤ 1 := hle
      · rw [if_neg hany]
        rw [activeCount, List.countP_append]
        have h1 : ([{ pk := k, is_active := false }] :
            List ProfileRec).countP (fun q => q.is_active) = 0 := rfl
        rw [h1]
        rw [activeCount] at hle
        omega
  · exact hmain.2.le

/-- C8 witness: activating profile 2 in a two-row table leaves one active. -/
theorem profile_save_single_active_witness :
    (([⟨1, true⟩, ⟨2, false⟩] : List ProfileRec).map (fun q => q.pk)).Nodup
    ∧ activeCount (profile_save [⟨1, true⟩, ⟨2, false⟩] (some 2) true) = 1 :=
  ⟨by decide,
    (profile_save_single_active [⟨1, true⟩, ⟨2, false⟩] (some 2) true
      (by decide)).1.2⟩

/-- One unfolding step of splitSlash. -/
theorem splitSlash_cons (c : Char) (rest : List Char) :
    splitSlash (c :: rest)
      = match splitSlash rest with
        | [] => [[]]
        | piece :: pieces =>
          if c = '/' then [] :: piece :: pieces else (c :: piece) :: pieces := rfl

/-- Splitting never yields the empty list of pieces. -/
theorem splitSlash_ne_nil (cs : List Char) : splitSlash cs ≠ [] := by
  cases cs with
  | nil => simp [splitSlash]
  | cons c rest =>
    rw [splitSlash_cons]
    rcases hs : splitSlash rest with _ | ⟨p, ps⟩
    · simp
    · dsimp only
      split <;> simp

/-- A slash-free list splits into itself alone. -/
theorem splitSlash_no_slash (cs : List Char) (h : '/' ∉ cs) :
    splitSlash cs = [cs] := by
  induction cs with
  | nil => rfl
  | cons c rest ih =>
    have hc : ¬ c = '/' := fun e => h (e ▸ List.mem_cons_self c rest)
    have hr : '/' ∉ rest := fun m => h (List.mem_cons_of_mem c m)
    rw [splitSlash_cons, ih hr]
    simp [hc]

/-- Splitting after a slash-free run peels that run off. -/
theorem splitSlash_append (xs ys : List Char) (h : '/' ∉ xs) :
    splitSlash (xs ++ '/' :: ys) = xs :: splitSlash ys := by
  induction xs with
  | nil =>
    rw [List.nil_append, splitSlash_cons]
    rcases hs : splitSlash ys with _ | ⟨p, ps⟩
    · exact absurd hs (splitSlash_ne_nil ys)
    · simp
  | cons c rest ih =>
    have hc : ¬ c = '/' := fun e => h (e ▸ List.mem_cons_self c rest)
    have hr : '/' ∉ rest := fun m => h (List.mem_cons_of_mem c m)
    rw [List.cons_append, splitSlash_cons, ih hr]
    simp [hc]

/-- Unfold one component of a slash join. -/
theorem interSlash_cons (c : List Char) (rest : List (List Char))
    (h : rest ≠ []) :
    interSlash (c :: rest) = c ++ '/' :: interSlash rest := by
  cases rest with
  | nil => exact absurd rfl h
  | cons c' r => rfl

/-- Slash joins concatenate with a separating slash. -/
theorem interSlash_append (xs ys : List (List Char)) (hx : xs ≠ [])
    (hy : ys ≠ []) :
    interSlash (xs ++ ys) = interSlash xs ++ '/' :: interSlash ys := by
  induction xs with
  | nil => exact absurd rfl hx
  | cons c rest ih =>
    cases rest with
    | nil =>
      rw [List.singleton_append, interSlash_cons c ys hy]
      rfl
    | cons c' r =>
      rw [List.cons_append, interSlash_cons c ((c' :: r) ++ ys) (by simp),
        ih (by simp), interSlash_cons c (c' :: r) (by simp), List.append_assoc]
      rfl

/-- Splitting a slash join of slash-free pieces recovers the pieces. -/
theorem splitSlash_interSlash (ps : List (List Char)) (h : ps ≠ [])
    (hns : ∀ p ∈ ps, '/' ∉ p) : splitSlash (interSlash ps) = ps := by
  induction ps with
  | nil => exact absurd rfl h
  | cons p rest ih =>
    cases rest with
    | nil => exact splitSlash_no_slash p (hns p (List.mem_cons_self p []))
    | cons p' r =>
      rw [interSlash_cons p (p' :: r) (by simp),
        splitSlash_append p (interSlash (p' :: r))
          (hns p (List.mem_cons_self p (p' :: r))),
        ih (by simp) fun q hq => hns q (List.mem_cons_of_mem p hq)]

/-- One unfolding step of lastDotIdx. -/
theorem lastDotIdx_cons (c : Char) (rest : List Char) :
    lastDotIdx (c :: rest)
      = match lastDotIdx rest with
        | some i => some (i + 1)
        | none => if c = '.' then some 0 else none := rfl

/-- A dot-free list has no last dot. -/
theorem lastDotIdx_no_dot (cs : List Char) (h : '.' ∉ cs) :
    lastDotIdx cs = none := by
  induction cs with
  | nil => rfl
  | cons c rest ih =>
    have hc : ¬ c = '.' := fun e => h (e ▸ List.mem_cons_self c rest)
    have hr : '.' ∉ rest := fun m => h (List.mem_cons_of_mem c m)
    rw [lastDotIdx_cons, ih hr]
    simp [hc]

/-- The last dot before a dot-free tail sits right after the head run. -/
theorem lastDotIdx_concat (stem ext : List Char) (hext : '.' ∉ ext) :
    lastDotIdx (stem ++ '.' :: ext) = some stem.length := by
  induction stem with
  | nil =>
    rw [List.nil_append, lastDotIdx_cons, lastDotIdx_no_dot ext hext]
    simp
  | cons c rest ih =>
    rw [List.cons_append, lastDotIdx_cons, ih]
    simp

/-- Stripping the suffix from name-with-extension leaves the name. -/
theorem stemChars_concat (stem ext : List Char) (hstem : stem ≠ [])
    (hext : ext ≠ []) (hd : '.' ∉ ext) :
    stemChars (stem ++ '.' :: ext) = stem := by
  unfold stemChars
  rw [lastDotIdx_concat stem ext hd]
  dsimp only
  rw [if_pos ⟨List.length_pos.mpr hstem, by
    rw [List.length_append, List.length_cons]
    have := List.length_pos.mpr hext
    omega⟩]
  exact List.take_left stem ('.' :: ext)

/-- The handwritten digit characters are neither slash nor dot. -/
theorem digitChar_ne (d : Nat) : digitChar d ≠ '/' ∧ digitChar d ≠ '.' := by
  unfold digitChar
  split_ifs <;> exact ⟨by decide, by decide⟩

/-- Decimal renderings contain only digit characters beyond the seed. -/
theorem natStrGo_chars (fuel : Nat) :
    ∀ (n : Nat) (acc : List Char), (∀ c ∈ acc, c ≠ '/' ∧ c ≠ '.') →
      ∀ c ∈ natStrGo fuel n acc, c ≠ '/' ∧ c ≠ '.' := by
  induction fuel with
  | zero => exact fun n acc hacc => hacc
  | succ fuel ih =>
    intro n acc hacc c hc
    unfold natStrGo at hc
    split at hc
    · rcases List.mem_cons.mp hc with rfl | hmem
      · exact digitChar_ne n
      · exact hacc c hmem
    · refine ih (n / 10) (digitChar (n % 10) :: acc) ?_ c hc
      intro c' hc'
      rcases List.mem_cons.mp hc' with rfl | hmem
      · exact digitChar_ne (n % 10)
      · exact hacc c' hmem

/-- A rendered number contains neither slash nor dot. -/
theorem natStr_chars (n : Nat) :
    ∀ c ∈ (natStr n).data, c ≠ '/' ∧ c ≠ '.' :=
  natStrGo_chars (n + 1) n [] (by simp)

/-- Rebuilding a string from its characters is the identity. -/
theorem string_mk_data (s : String) : String.mk s.data = s := by
  cases s
  rfl

/-- Strings with equal character lists are equal. -/
theorem string_eq_of_data (s t : String) (h : s.data = t.data) : s = t := by
  cases s
  cases t
  exact congrArg String.mk h

/-- One unfolding step of startsWithSlash. -/
theorem startsWithSlash_cons (c : Char) (t : List Char) :
    startsWithSlash (c :: t) = decide (c = '/') := rfl

/-- Parsing a slash join of clean components recovers exactly them. -/
theorem parsePath_clean (ps : List (List Char)) (h : ps ≠ [])
    (hc : ∀ p ∈ ps, cleanComp p) :
    parsePath (String.mk (interSlash ps)) = ⟨false, ps⟩ := by
  obtain ⟨p, rest, rfl⟩ : ∃ p rest, ps = p :: rest := by
    cases ps with
    | nil => exact absurd rfl h
    | cons p rest => exact ⟨p, rest, rfl⟩
  obtain ⟨a, t, rfl⟩ : ∃ a t, p = a :: t := by
    rcases hp : p with _ | ⟨a, t⟩
    · exact absurd (hp ▸ (hc p (List.mem_cons_self p rest)).1) (by simp [hp])
    · exact ⟨a, t, rfl⟩
  have ha : ¬ a = '/' := fun e =>
    (hc (a :: t) (List.mem_cons_self (a :: t) rest)).2.2
      (e ▸ List.mem_cons_self a t)
  obtain ⟨u, hu⟩ : ∃ u, interSlash ((a :: t) :: rest) = a :: u := by
    cases rest with
    | nil => exact ⟨t, rfl⟩
    | cons p' r =>
      exact ⟨t ++ '/' :: interSlash (p' :: r),
        by rw [interSlash_cons (a :: t) (p' :: r) (by simp)]; rfl⟩
  unfold parsePath
  simp only [PurePath.mk.injEq]
  constructor
  · rw [hu, startsWithSlash_cons]
    exact decide_eq_false ha
  · rw [splitSlash_interSlash ((a :: t) :: rest) (by simp)
        fun q hq => (hc q hq).2.2]
    refine List.filter_eq_self.mpr fun q hq => ?_
    rw [decide_eq_true_eq]
    exact ⟨(hc q hq).1, (hc q hq).2.1⟩

/-- Parsing a single clean component. -/
theorem parsePath_single (c : List Char) (hc : cleanComp c) :
    parsePath (String.mk c) = ⟨false, [c]⟩ :=
  parsePath_clean [c] (by simp) fun p hp => (List.mem_singleton.mp hp) ▸ hc

/-- Joining a relative parsed operand appends its components. -/
theorem pathJoin_of_parse (p : PurePath) (s : String) (cs : List (List Char))
    (hq : parsePath s = ⟨false, cs⟩) :
    pathJoin p s = ⟨p.absolute, p.comps ++ cs⟩ := by
  unfold pathJoin
  rw [hq]
  rfl

/-- The reserved directory parses to its single component. -/
theorem parse_variants_dir :
    parsePath "_variants" = ⟨false, ["_variants".data]⟩ := by decide

/-- Printing a nonempty relative path joins its components with slashes. -/
theorem pathStr_of_comps (cs : List (List Char)) (h : cs ≠ []) :
    pathStr ⟨false, cs⟩ = String.mk (interSlash cs) := by
  unfold pathStr
  simp [h]

/-- C2 counterexample: two distinct source names that differ only in their
extension produce the same derived variant file name, so the derived name is
not injective in the variant key. -/
theorem variant_file_name_collision :
    variant_file_name "img/photo.png" "card" 800 450
      = variant_file_name "img/photo.jpg" "card" 800 450
    ∧ ("img/photo.png" : String) ≠ "img/photo.jpg" := by
  constructor <;> decide

/-- C2 amended: for a source name in normal form, directory components plus
a stem-and-extension file name, the derived name is exactly
parent/_variants/stem__variant_WxH.jpg; being a pure function of source
name, variant name and size, equal keys always give equal names (and, by
the collision counterexample, distinct keys need not differ). -/
theorem variant_file_name_formula
    (ds : List String) (stemS ext v : String) (w hgt : Nat)
    (hds : ds ≠ [])
    (hclean : ∀ d ∈ ds, cleanComp d.data)
    (hstem : stemS.data ≠ [] ∧ '/' ∉ stemS.data)
    (hext : ext.data ≠ [] ∧ '/' ∉ ext.data ∧ '.' ∉ ext.data)
    (hv : '/' ∉ v.data) :
    variant_file_name (joinComps (ds ++ [stemS ++ "." ++ ext])) v w hgt
      = joinComps ds ++ "/_variants/" ++ stemS ++ "__" ++ v ++ "_"
        ++ natStr w ++ "x" ++ natStr hgt ++ ".jpg" := by
  have hbdata : (stemS ++ "." ++ ext).data = stemS.data ++ '.' :: ext.data := by
    rw [String.data_append, String.data_append,
      show ("." : String).data = ['.'] from rfl, List.append_assoc]
    rfl
  have hmap : (ds ++ [stemS ++ "." ++ ext]).map String.data
      = ds.map String.data ++ [stemS.data ++ '.' :: ext.data] := by
    rw [List.map_append, List.map_singleton, hbdata]
  have hbase_clean : cleanComp (stemS.data ++ '.' :: ext.data) := by
    refine ⟨by simp, fun e => ?_, fun hm => ?_⟩
    · have hlen := congrArg List.length e
      have hs := List.length_pos.mpr hstem.1
      rw [List.length_append, List.length_cons,
        show (['.'] : List Char).length = 1 from rfl] at hlen
      omega
    · rcases List.mem_append.mp hm with hm | hm
      · exact hstem.2 hm
      · rcases List.mem_cons.mp hm with e | hm
        · exact absurd e (by decide)
        · exact hext.2.1 hm
  have hcleanAll : ∀ p ∈ ds.map String.data ++ [stemS.data ++ '.' :: ext.data],
      cleanComp p := by
    intro p hp
    rcases List.mem_append.mp hp with hp | hp
    · rcases List.mem_map.mp hp with ⟨d, hd, rfl⟩
      exact hclean d hd
    · exact (List.mem_singleton.mp hp) ▸ hbase_clean
  have hparse : parsePath (joinComps (ds ++ [stemS ++ "." ++ ext]))
      = ⟨false, ds.map String.data ++ [stemS.data ++ '.' :: ext.data]⟩ := by
    unfold joinComps
    rw [hmap]
    exact parsePath_clean _ (by simp) hcleanAll
  have hparent : pathParent
      ⟨false, ds.map String.data ++ [stemS.data ++ '.' :: ext.data]⟩
      = ⟨false, ds.map String.data⟩ := by
    unfold pathParent
    rw [List.dropLast_concat]
  have hstemEq : pathStem
      ⟨false, ds.map String.data ++ [stemS.data ++ '.' :: ext.data]⟩
      = stemS := by
    unfold pathStem pathName
    rw [List.getLastD_concat, stemChars_concat stemS.data ext.data hstem.1
      hext.1 hext.2.2, string_mk_data stemS]
  have hfdata : (stemS ++ "__" ++ v ++ "_" ++ natStr w ++ "x" ++ natStr hgt
      ++ ".jpg").data
      = stemS.data ++ "__".data ++ v.data ++ "_".data ++ (natStr w).data
        ++ "x".data ++ (natStr hgt).data ++ ".jpg".data := by
    simp only [String.data_append]
  have hfclean : cleanComp (stemS ++ "__" ++ v ++ "_" ++ natStr w ++ "x"
      ++ natStr hgt ++ ".jpg").data := by
    rw [hfdata]
    refine ⟨by simp [show (".jpg" : String).data = ['.', 'j', 'p', 'g'] from rfl],
      fun e => ?_, fun hm => ?_⟩
    · have hlen := congrArg List.length e
      simp [List.length_append,
        show (".jpg" : String).data = ['.', 'j', 'p', 'g'] from rfl] at hlen
      omega
    · rcases List.mem_append.mp hm with hm | hm
      rotate_left
      · exact absurd hm (by decide)
      rcases List.mem_append.mp hm with hm | hm
      rotate_left
      · exact (natStr_chars hgt '/' hm).1 rfl
      rcases List.mem_append.mp hm with hm | hm
      rotate_left
      · exact absurd hm (by decide)
      rcases List.mem_append.mp hm with hm | hm
      rotate_left
      · exact (natStr_chars w '/' hm).1 rfl
      rcases List.mem_append.mp hm with hm | hm
      rotate_left
      · exact absurd hm (by decide)
      rcases List.mem_append.mp hm with hm | hm
      rotate_left
      · exact hv hm
      rcases List.mem_append.mp hm with hm | hm
      · exact hstem.2 hm
      · exact absurd hm (by decide)
  have hparsef : parsePath (stemS ++ "__" ++ v ++ "_" ++ natStr w ++ "x"
      ++ natStr hgt ++ ".jpg")
      = ⟨false, [(stemS ++ "__" ++ v ++ "_" ++ natStr w ++ "x" ++ natStr hgt
          ++ ".jpg").data]⟩ := by
    rw [← string_mk_data (stemS ++ "__" ++ v ++ "_" ++ natStr w ++ "x"
      ++ natStr hgt ++ ".jpg")]
    exact parsePath_single _ hfclean
  unfold variant_file_name
  rw [hparse, hparent, hstemEq,
    pathJoin_of_parse ⟨false, ds.map String.data⟩ "_variants"
      ["_variants".data] parse_variants_dir,
    pathJoin_of_parse _ _ _ hparsef,
    pathStr_of_comps _ (by simp)]
  apply string_eq_of_data
  show interSlash ((ds.map String.data ++ ["_variants".data])
      ++ [(stemS ++ "__" ++ v ++ "_" ++ natStr w ++ "x" ++ natStr hgt
        ++ ".jpg").data]) = _
  rw [List.append_assoc, List.singleton_append,
    interSlash_append (ds.map String.data)
      ["_variants".data, (stemS ++ "__" ++ v ++ "_" ++ natStr w ++ "x"
        ++ natStr hgt ++ ".jpg").data]
      (fun hnil => hds (List.map_eq_nil.mp hnil)) (by simp),
    show interSlash ["_variants".data, (stemS ++ "__" ++ v ++ "_" ++ natStr w
        ++ "x" ++ natStr hgt ++ ".jpg").data]
      = "_variants".data ++ '/' :: (stemS ++ "__" ++ v ++ "_" ++ natStr w
        ++ "x" ++ natStr hgt ++ ".jpg").data from rfl,
    hfdata]
  simp only [String.data_append]
  rw [show (joinComps ds).data = interSlash (ds.map String.data) from rfl]
  simp [List.append_assoc]

/-- C2 witness: the formula instantiated at img/photo.png, card, 800 by 450. -/
theorem variant_file_name_formula_witness :
    variant_file_name (joinComps (["img"] ++ ["photo" ++ "." ++ "png"]))
        "card" 800 450
      = joinComps ["img"] ++ "/_variants/" ++ "photo" ++ "__" ++ "card" ++ "_"
        ++ natStr 800 ++ "x" ++ natStr 450 ++ ".jpg" :=
  variant_file_name_formula ["img"] "photo" "png" "card" 800 450
    (by decide)
    (by intro d hd
        rcases List.mem_singleton.mp hd with rfl
        exact ⟨by decide, by decide, by decide⟩)
    (by decide) (by decide) (by decide)

end CokDjango
